import Mathlib

/-!
Shallow embedding of the ipmiserial repository's core algorithms, and proofs
about the properties its specification claims.

Bytes are modelled as `Nat` values (< 256 where the source guarantees it);
byte strings are `List Nat`.  Machine-integer wraparound is made explicit
with `% 256`, `% 65536`, `% 2^32`.  Recursions that the Go source expresses
as loops consuming a slice are given a fuel parameter equal to the input
length, which is always sufficient because every iteration consumes at
least one byte.
-/

namespace IpmiSerial

/-- Little-endian 16-bit encoding (source: `binary.LittleEndian.PutUint16`). -/
def le16n (x : Nat) : List Nat := [x % 256, x / 256 % 256]

/-- Little-endian 32-bit encoding (source: `binary.LittleEndian.PutUint32`). -/
def le32n (x : Nat) : List Nat :=
  [x % 256, x / 256 % 256, x / 65536 % 256, x / 16777216 % 256]

/-- Little-endian 16-bit decoding (source: `binary.LittleEndian.Uint16`). -/
def le16dec (lo hi : Nat) : Nat := lo + 256 * hi

/-- Big-endian 32-bit serialisation of one word. -/
def be32bytes (x : Nat) : List Nat :=
  [x / 16777216 % 256, x / 65536 % 256, x / 256 % 256, x % 256]

/-- Big-endian 64-bit serialisation (for the SHA length field). -/
def be64bytes (x : Nat) : List Nat :=
  [x / 2 ^ 56 % 256, x / 2 ^ 48 % 256, x / 2 ^ 40 % 256, x / 2 ^ 32 % 256,
   x / 16777216 % 256, x / 65536 % 256, x / 256 % 256, x % 256]

/-- 32-bit truncation. -/
def w32 (x : Nat) : Nat := x % 2 ^ 32

/-- 32-bit left rotation. -/
def rotl32 (n x : Nat) : Nat := ((x <<< n) ||| (x >>> (32 - n))) % 2 ^ 32

/-- 32-bit right rotation. -/
def rotr32 (n x : Nat) : Nat := ((x >>> n) ||| (x <<< (32 - n))) % 2 ^ 32

/-- 32-bit bitwise complement. -/
def not32 (x : Nat) : Nat := x ^^^ 0xFFFFFFFF

/-- Big-endian word assembly from four bytes. -/
def be32of (a b c d : Nat) : Nat := ((a * 256 + b) * 256 + c) * 256 + d

/-- Group a byte string into big-endian 32-bit words. -/
def toWords : List Nat → List Nat
  | a :: b :: c :: d :: rest => be32of a b c d :: toWords rest
  | _ => []

/-- Merkle–Damgård padding shared by SHA-1 and SHA-256: append 0x80, zeros to
56 mod 64, then the 64-bit big-endian bit length. -/
def shaPad (msg : List Nat) : List Nat :=
  msg ++ [0x80] ++ List.replicate ((120 - (msg.length + 1) % 64) % 64) 0
      ++ be64bytes (8 * msg.length)

/-- Split a byte string into 64-byte chunks (fuel-driven; fuel ≥ length works). -/
def chunks64Go : Nat → List Nat → List (List Nat)
  | 0, _ => []
  | _ + 1, [] => []
  | fuel + 1, l => l.take 64 :: chunks64Go fuel (l.drop 64)

def chunks64 (l : List Nat) : List (List Nat) := chunks64Go l.length l

/-- SHA-1 message-schedule extension to 80 words. -/
def sha1Extend (w : List Nat) : List Nat :=
  (List.range 64).foldl
    (fun w _ =>
      w ++ [rotl32 1 ((w.getD (w.length - 3) 0 ^^^ w.getD (w.length - 8) 0) ^^^
                      (w.getD (w.length - 14) 0 ^^^ w.getD (w.length - 16) 0))])
    w

/-- One SHA-1 compression round. -/
def sha1Round (st : Nat × Nat × Nat × Nat × Nat) (i wi : Nat) :
    Nat × Nat × Nat × Nat × Nat :=
  let (a, b, c, d, e) := st
  let f :=
    if i < 20 then (b &&& c) ||| (not32 b &&& d)
    else if i < 40 then (b ^^^ c) ^^^ d
    else if i < 60 then ((b &&& c) ||| (b &&& d)) ||| (c &&& d)
    else (b ^^^ c) ^^^ d
  let k :=
    if i < 20 then 0x5A827999
    else if i < 40 then 0x6ED9EBA1
    else if i < 60 then 0x8F1BBCDC
    else 0xCA62C1D6
  let t := w32 (rotl32 5 a + f + e + k + wi)
  (t, a, rotl32 30 b, c, d)

/-- SHA-1 compression of one 64-byte chunk. -/
def sha1Compress (hs : Nat × Nat × Nat × Nat × Nat) (chunk : List Nat) :
    Nat × Nat × Nat × Nat × Nat :=
  let w := sha1Extend (toWords chunk)
  let (h0, h1, h2, h3, h4) := hs
  let (a, b, c, d, e) :=
    (List.range 80).foldl (fun st i => sha1Round st i (w.getD i 0))
      (h0, h1, h2, h3, h4)
  (w32 (h0 + a), w32 (h1 + b), w32 (h2 + c), w32 (h3 + d), w32 (h4 + e))

/-- SHA-1 (source: Go `crypto/sha1`, used through `hmacHash`). -/
def sha1 (msg : List Nat) : List Nat :=
  let (h0, h1, h2, h3, h4) :=
    (chunks64 (shaPad msg)).foldl sha1Compress
      (0x67452301, 0xEFCDAB89, 0x98BADCFE, 0x10325476, 0xC3D2E1F0)
  be32bytes h0 ++ be32bytes h1 ++ be32bytes h2 ++ be32bytes h3 ++ be32bytes h4

/-- SHA-256 round constants. -/
def sha256K : List Nat :=
  [1116352408, 1899447441, 3049323471, 3921009573, 961987163, 1508970993,
   2453635748, 2870763221, 3624381080, 310598401, 607225278, 1426881987,
   1925078388, 2162078206, 2614888103, 3248222580, 3835390401, 4022224774,
   264347078, 604807628, 770255983, 1249150122, 1555081692, 1996064986,
   2554220882, 2821834349, 2952996808, 3210313671, 3336571891, 3584528711,
   113926993, 338241895, 666307205, 773529912, 1294757372, 1396182291,
   1695183700, 1986661051, 2177026350, 2456956037, 2730485921, 2820302411,
   3259730800, 3345764771, 3516065817, 3600352804, 4094571909, 275423344,
   430227734, 506948616, 659060556, 883997877, 958139571, 1322822218,
   1537002063, 1747873779, 1955562222, 2024104815, 2227730452, 2361852424,
   2428436474, 2756734187, 3204031479, 3329325298]

/-- SHA-256 message-schedule extension to 64 words. -/
def sha256Extend (w : List Nat) : List Nat :=
  (List.range 48).foldl
    (fun w _ =>
      let w15 := w.getD (w.length - 15) 0
      let w2 := w.getD (w.length - 2) 0
      let s0 := (rotr32 7 w15 ^^^ rotr32 18 w15) ^^^ (w15 >>> 3)
      let s1 := (rotr32 17 w2 ^^^ rotr32 19 w2) ^^^ (w2 >>> 10)
      w ++ [w32 (w.getD (w.length - 16) 0 + s0 + w.getD (w.length - 7) 0 + s1)])
    w

/-- SHA-256 working state: eight 32-bit words. -/
structure Sha256St where
  a : Nat
  b : Nat
  c : Nat
  d : Nat
  e : Nat
  f : Nat
  g : Nat
  h : Nat

/-- One SHA-256 compression round. -/
def sha256Round (st : Sha256St) (i wi : Nat) : Sha256St :=
  let s1 := (rotr32 6 st.e ^^^ rotr32 11 st.e) ^^^ rotr32 25 st.e
  let ch := (st.e &&& st.f) ^^^ (not32 st.e &&& st.g)
  let t1 := w32 (st.h + s1 + ch + sha256K.getD i 0 + wi)
  let s0 := (rotr32 2 st.a ^^^ rotr32 13 st.a) ^^^ rotr32 22 st.a
  let maj := ((st.a &&& st.b) ^^^ (st.a &&& st.c)) ^^^ (st.b &&& st.c)
  let t2 := w32 (s0 + maj)
  ⟨w32 (t1 + t2), st.a, st.b, st.c, w32 (st.d + t1), st.e, st.f, st.g⟩

/-- SHA-256 compression of one 64-byte chunk. -/
def sha256Compress (hs : Sha256St) (chunk : List Nat) : Sha256St :=
  let w := sha256Extend (toWords chunk)
  let st := (List.range 64).foldl (fun st i => sha256Round st i (w.getD i 0)) hs
  ⟨w32 (hs.a + st.a), w32 (hs.b + st.b), w32 (hs.c + st.c), w32 (hs.d + st.d),
   w32 (hs.e + st.e), w32 (hs.f + st.f), w32 (hs.g + st.g), w32 (hs.h + st.h)⟩

/-- SHA-256 (source: Go `crypto/sha256`, used through `hmacHash`). -/
def sha256 (msg : List Nat) : List Nat :=
  let st :=
    (chunks64 (shaPad msg)).foldl sha256Compress
      ⟨0x6a09e667, 0xbb67ae85, 0x3c6ef372, 0xa54ff53a,
       0x510e527f, 0x9b05688c, 0x1f83d9ab, 0x5be0cd19⟩
  be32bytes st.a ++ be32bytes st.b ++ be32bytes st.c ++ be32bytes st.d ++
  be32bytes st.e ++ be32bytes st.f ++ be32bytes st.g ++ be32bytes st.h

/-- HMAC over an abstract hash with 64-byte blocks (source: Go `crypto/hmac`).
A key longer than the block size is first hashed; the key is zero-padded to
the block size; the result is H(opad ∥ H(ipad ∥ msg)). -/
def hmacGeneric (hash : List Nat → List Nat) (key msg : List Nat) : List Nat :=
  let k0 := if 64 < key.length then hash key else key
  let kb := k0 ++ List.replicate (64 - k0.length) 0
  let ipad := kb.map (fun c => c ^^^ 0x36)
  let opad := kb.map (fun c => c ^^^ 0x5c)
  hash (opad ++ hash (ipad ++ msg))

/-- `hmacHash` from the packet codec: algorithm 1 (RAKP HMAC-SHA1) selects
SHA-1, algorithm 3 (RAKP HMAC-SHA256) selects SHA-256, anything else falls
back to SHA-1 (source: `hmacHash`, src/unnamed/part_013). -/
def hmacHash (alg : Nat) (key data : List Nat) : List Nat :=
  match alg with
  | 1 => hmacGeneric sha1 key data
  | 3 => hmacGeneric sha256 key data
  | _ => hmacGeneric sha1 key data

/-- `generateSIK` (source: src/unnamed/part_013):
SIK = HMAC_kg(Rm ∥ Rc ∥ rolePriv ∥ uint8(len(username)) ∥ username). -/
def generateSIK (authAlg : Nat) (kg rmRand mcRand : List Nat) (rolePriv : Nat)
    (username : List Nat) : List Nat :=
  hmacHash authAlg kg
    (rmRand ++ mcRand ++ [rolePriv] ++ [username.length % 256] ++ username)

/-- `generateK1` (source: src/unnamed/part_013): K1 = HMAC_SIK(0x01 × 20). -/
def generateK1 (authAlg : Nat) (sik : List Nat) : List Nat :=
  hmacHash authAlg sik (List.replicate 20 0x01)

/-- `generateK2` (source: src/unnamed/part_013): K2 = HMAC_SIK(0x02 × 20). -/
def generateK2 (authAlg : Nat) (sik : List Nat) : List Nat :=
  hmacHash authAlg sik (List.replicate 20 0x02)

/-! ## go-sol packet layer (vendor/github.com/gwest/go-sol) -/

/-- The part of the `Session` state that `buildSolPacket` reads
(source: sol.go / payload.go). -/
structure SolSession where
  integrityAlg : Nat
  remoteSessionID : Nat
  k1 : List Nat

/-- `buildSolPacket` (source: payload.go lines 388-432): RMCP header,
12-byte RMCP+ session header with payload type 0x01 (plus the authenticated
bit 0x40 when integrity ≠ none) and a session sequence of 0, the payload,
and — when integrity ≠ none — the pad, pad length, next-header 0x07 and the
first 12 bytes of HMAC_K1 over the packet past the RMCP header. -/
def buildSolPacket (s : SolSession) (payload : List Nat) : List Nat :=
  let payloadType := if s.integrityAlg ≠ 0 then 0x01 ||| 0x40 else 0x01
  let rmcp : List Nat := [0x06, 0x00, 0xFF, 0x07]
  let session :=
    [0x06, payloadType] ++ le32n s.remoteSessionID ++ le32n 0 ++
      le16n (payload.length % 65536)
  let packet := rmcp ++ session ++ payload
  if s.integrityAlg ≠ 0 then
    let padLen := (4 - payload.length % 4) % 4
    let withPad := packet ++ List.replicate padLen 0xFF ++ [padLen, 0x07]
    withPad ++ (hmacHash s.integrityAlg s.k1 (withPad.drop 4)).take 12
  else packet

/-- The 32-bit session sequence field of an RMCP+ packet: bytes 10..13
(RMCP 4 + authType 1 + payloadType 1 + sessionID 4). -/
def sessionSeqField (pkt : List Nat) : List Nat := (pkt.drop 10).take 4

/-- The session sequence as a number (little-endian). -/
def sessionSeqVal (pkt : List Nat) : Nat :=
  pkt.getD 10 0 + 256 * pkt.getD 11 0 + 65536 * pkt.getD 12 0 +
    16777216 * pkt.getD 13 0

/-- uint8 increment that skips 0 (source: `s.solSeqNum++; if == 0 { = 1 }`
and the identical per-chunk wrap in `sendSolData`). -/
def wrapInc8 (x : Nat) : Nat :=
  let y := (x + 1) % 256
  if y = 0 then 1 else y

/-- The chunking loop of `sendSolData` (payload.go lines 302-327).
`m + 1` is `maxData`; each produced SOL payload is the 4-byte sub-header
{pkt_seq, ack_seq, 0, 0} followed by up to `maxData` bytes; the packet
sequence is incremented with the 0-skipping wrap between chunks. -/
def solChunkLoop (seq ack m : Nat) (data : List Nat) : List (List Nat) :=
  match data with
  | [] => []
  | x :: rest =>
    if (x :: rest).length > m + 1 then
      ([seq, ack, 0, 0] ++ (x :: rest).take (m + 1)) ::
        solChunkLoop (wrapInc8 seq) ack m ((x :: rest).drop (m + 1))
    else [[seq, ack, 0, 0] ++ x :: rest]
termination_by data.length
decreasing_by simp [List.length_drop]; omega

/-- The SOL-sequencing state that `sendSolData` reads and writes. -/
structure SolWState where
  solSeqNum : Nat
  ackSeqNum : Nat
  maxOutbound : Nat

/-- `sendSolData` (payload.go lines 278-330): draw the packet sequence from
`solSeqNum` and advance it once with the 0-skipping wrap; compute
`maxData = int(maxOutbound) − 4`, replaced by 200 when < 1; emit the chunked
packets.  Returns the new state and the SOL payloads produced. -/
def sendSolData (st : SolWState) (data : List Nat) :
    SolWState × List (List Nat) :=
  let maxData := if st.maxOutbound < 5 then 200 else st.maxOutbound - 4
  (⟨wrapInc8 st.solSeqNum, st.ackSeqNum, st.maxOutbound⟩,
   solChunkLoop st.solSeqNum st.ackSeqNum (maxData - 1) data)

/-- The packet sequence numbers carried by a list of SOL payloads. -/
def packetSeqs (pkts : List (List Nat)) : List Nat :=
  pkts.map (fun p => p.getD 0 0)

/-- `activateSOL` response handling (payload.go lines 79-109): completion
code at offset 22; payload length little-endian at offsets 14-15; when
`dataLen = payloadLen − 8 ≥ 8` and the response is long enough, read the
two-byte little-endian field at +6 of the response data; replace a result
of 0 or > 255 by the default 200. -/
def parseActivate (prevMax : Nat) (resp : List Nat) : Except String Nat :=
  if resp.length < 23 then .error "activate payload response too short"
  else if resp.getD 22 0 ≠ 0 then .error "activate payload failed"
  else
    let payloadLen := le16dec (resp.getD 14 0) (resp.getD 15 0)
    let dataLen := payloadLen - 8
    let m :=
      if 8 ≤ dataLen ∧ 23 + dataLen ≤ resp.length then
        le16dec (resp.getD 29 0) (resp.getD 30 0)
      else prevMax
    .ok (if m = 0 ∨ 255 < m then 200 else m)

/-- A well-formed ActivatePayload response wrapping `respData`:
RMCP header, 12-byte session header whose payload length counts the 6-byte
IPMI header + completion code + data + trailing checksum, the IPMI response
header, completion code 0, the response data, and the checksum. -/
def mkActivateResp (respData : List Nat) : List Nat :=
  [0x06, 0x00, 0xFF, 0x07] ++
  [0x06, 0x00] ++ le32n 0 ++ le32n 0 ++ le16n (respData.length + 8) ++
  [0x81, 0x1C, 0x63, 0x20, 0x00, 0x48] ++
  [0x00] ++ respData ++ [0x00]

/-- The read pump's burst queue (payload.go line 141 and 254-257): capacity
10000; `select { case queue <- data: default: }` enqueues only when the
queue has free space and otherwise drops the data. -/
def solQueueCap : Nat := 10000

def tryEnqueue (q : List (List Nat)) (d : List Nat) : List (List Nat) :=
  if q.length < solQueueCap then q ++ [d] else q

/-! ## LogWriter (src/logs/writer.go)

The four Go regexes are implemented as left-to-right scanners with the
leftmost-match / replace / continue-after-match semantics of
`regexp.ReplaceAll`.  Each scanner carries a fuel argument equal to the
input length, which suffices because every step consumes at least one
byte. -/

def isDigitB (c : Nat) : Bool := 48 ≤ c && c ≤ 57

def isAlphaB (c : Nat) : Bool := (65 ≤ c && c ≤ 90) || (97 ≤ c && c ≤ 122)

/-- `[0-9;?]` of the CSI escape class. -/
def isCsiParamB (c : Nat) : Bool := isDigitB c || c == 59 || c == 63

/-- `[\d;]` of the orphaned-fragment classes. -/
def isDigitSemiB (c : Nat) : Bool := isDigitB c || c == 59

/-- Decimal value of a digit run (how `cleanCursorPositions` parses the
column between the ';' and the final letter). -/
def digitsVal (ds : List Nat) : Nat := ds.foldl (fun a c => a * 10 + (c - 48)) 0

/-- Match `cursorPosRegex = \x1b\[\d+;\d*[Hf]|\x1b\[\d+[Hf]` right after an
ESC byte; returns the consumed byte count (after the ESC) and the
replacement chosen by `cleanCursorPositions`: `\n` when there is no column
or the column is ≤ 1, nothing when the column is > 1. -/
def matchCursorTail (l : List Nat) : Option (Nat × List Nat) :=
  match l with
  | 91 :: rest =>
    let d1 := rest.takeWhile isDigitB
    if d1.isEmpty then none
    else
      match rest.drop d1.length with
      | 59 :: r2 =>
        let d2 := r2.takeWhile isDigitB
        (match r2.drop d2.length with
         | c :: _ =>
           if c = 72 ∨ c = 102 then
             some (1 + d1.length + 1 + d2.length + 1,
                   if digitsVal d2 ≤ 1 then [10] else [])
           else none
         | [] => none)
      | c :: _ =>
        if c = 72 ∨ c = 102 then some (1 + d1.length + 1, [10]) else none
      | [] => none
  | _ => none

/-- `cleanCursorPositions` (writer.go lines 23-42). -/
def cursorGo : Nat → List Nat → List Nat
  | 0, l => l
  | _ + 1, [] => []
  | fuel + 1, c :: rest =>
    if c = 27 then
      match matchCursorTail rest with
      | some (n, repl) => repl ++ cursorGo fuel (rest.drop n)
      | none => c :: cursorGo fuel rest
    else c :: cursorGo fuel rest

def cursorScan (l : List Nat) : List Nat := cursorGo l.length l

/-- Match `ansiRegex` right after an ESC byte; returns the consumed byte
count (the match is removed). -/
def matchAnsiTail (l : List Nat) : Option Nat :=
  match l with
  | [] => none
  | 91 :: rest =>
    let p := rest.takeWhile isCsiParamB
    (match rest.drop p.length with
     | c :: _ => if isAlphaB c then some (1 + p.length + 1) else none
     | [] => none)
  | 93 :: rest =>
    let p := rest.takeWhile (fun c => c != 7)
    (match rest.drop p.length with
     | _ :: _ => some (1 + p.length + 1)
     | [] => none)
  | c :: rest =>
    if c = 40 ∨ c = 41 then
      match rest with
      | d :: _ =>
        if d = 65 ∨ d = 66 ∨ d = 48 ∨ d = 49 ∨ d = 50 then some 2 else none
      | [] => none
    else if c = 61 ∨ c = 62 then some 1
    else if c = 55 ∨ c = 56 then some 1
    else if c = 68 ∨ c = 77 ∨ c = 69 ∨ c = 72 ∨ c = 99 then some 1
    else none

/-- `ansiRegex.ReplaceAll(data, nil)` (writer.go line 45 / 252). -/
def ansiGo : Nat → List Nat → List Nat
  | 0, l => l
  | _ + 1, [] => []
  | fuel + 1, c :: rest =>
    if c = 27 then
      match matchAnsiTail rest with
      | some n => ansiGo fuel (rest.drop n)
      | none => c :: ansiGo fuel rest
    else c :: ansiGo fuel rest

def ansiScan (l : List Nat) : List Nat := ansiGo l.length l

/-- Match `orphanedAnsiRegex = \[[=?]?[\d;]*[A-Za-z]|\[[=?]?[\d;]+$` right
after a '[' byte ($ is end of the whole input). -/
def matchOrphanTail (rest : List Nat) : Option Nat :=
  let opt : Nat × List Nat :=
    match rest with
    | c :: r => if c = 61 ∨ c = 63 then (1, r) else (0, rest)
    | [] => (0, rest)
  let p := opt.2.takeWhile isDigitSemiB
  match opt.2.drop p.length with
  | c :: _ => if isAlphaB c then some (opt.1 + p.length + 1) else none
  | [] => if 1 ≤ p.length then some (opt.1 + p.length) else none

/-- `orphanedAnsiRegex.ReplaceAll(data, nil)` (writer.go line 49 / 255). -/
def orphanGo : Nat → List Nat → List Nat
  | 0, l => l
  | _ + 1, [] => []
  | fuel + 1, c :: rest =>
    if c = 91 then
      match matchOrphanTail rest with
      | some n => orphanGo fuel (rest.drop n)
      | none => c :: orphanGo fuel rest
    else c :: orphanGo fuel rest

def orphanScan (l : List Nat) : List Nat := orphanGo l.length l

/-- Match `(?m)\[[=?]?[\d;]+$` right after a '[' byte ($ is zero-width:
before a newline or at the end). -/
def matchOrphanLineTail (rest : List Nat) : Option Nat :=
  let opt : Nat × List Nat :=
    match rest with
    | c :: r => if c = 61 ∨ c = 63 then (1, r) else (0, rest)
    | [] => (0, rest)
  let p := opt.2.takeWhile isDigitSemiB
  if 1 ≤ p.length then
    match opt.2.drop p.length with
    | [] => some (opt.1 + p.length)
    | 10 :: _ => some (opt.1 + p.length)
    | _ => none
  else none

/-- `orphanedAnsiLineRegex.ReplaceAll(data, nil)` (writer.go line 50 / 256). -/
def orphanLineGo : Nat → List Nat → List Nat
  | 0, l => l
  | _ + 1, [] => []
  | fuel + 1, c :: rest =>
    if c = 91 then
      match matchOrphanLineTail rest with
      | some n => orphanLineGo fuel (rest.drop n)
      | none => c :: orphanLineGo fuel rest
    else c :: orphanLineGo fuel rest

def orphanLineScan (l : List Nat) : List Nat := orphanLineGo l.length l

/-- `bytes.ReplaceAll(data, "\r\n", "\n")`. -/
def replaceCRLF : List Nat → List Nat
  | [] => []
  | [c] => [c]
  | a :: b :: rest =>
    if a = 13 ∧ b = 10 then 10 :: replaceCRLF rest
    else a :: replaceCRLF (b :: rest)

/-- Keep only what follows the last CR of a line (terminal-overwrite
semantics of writer.go lines 264-269). -/
def stripCR (line : List Nat) : List Nat :=
  (line.reverse.takeWhile (fun c => c != 13)).reverse

/-- `bytes.Split(data, "\n")`. -/
def splitNL : List Nat → List (List Nat)
  | [] => [[]]
  | c :: rest =>
    if c = 10 then [] :: splitNL rest
    else
      match splitNL rest with
      | h :: t => (c :: h) :: t
      | [] => [[c]]

/-- Join lines with a single newline between them. -/
def joinNL : List (List Nat) → List Nat
  | [] => []
  | [l] => l
  | l :: rest => l ++ 10 :: joinNL rest

/-- Carriage-return handling (writer.go lines 262-271), guarded on the
presence of a CR byte exactly as in the source. -/
def crHandle (l : List Nat) : List Nat :=
  if 13 ∈ l then joinNL ((splitNL (replaceCRLF l)).map stripCR) else l

/-- Bytes the control scrub keeps: `\n`, `\t`, printable 0x20..0x7E. -/
def goodByteB (c : Nat) : Bool := c == 10 || c == 9 || (32 ≤ c && c ≤ 126)

/-- Control-byte scrub (writer.go lines 274-279). -/
def scrub (l : List Nat) : List Nat := l.filter goodByteB

/-- `bytes.TrimRight(line, " \t")`. -/
def rtrimSpTab (l : List Nat) : List Nat :=
  (l.reverse.dropWhile (fun c => c == 32 || c == 9)).reverse

/-- Right-trim of the spinner characters slash, dash, backslash, pipe and
dot (writer.go line 168). -/
def rtrimSpin (l : List Nat) : List Nat :=
  (l.reverse.dropWhile
     (fun c => c == 47 || c == 45 || c == 92 || c == 124 || c == 46)).reverse

/-- Right-trim every line (writer.go lines 282-290). -/
def trimLines (l : List Nat) : List Nat := joinNL ((splitNL l).map rtrimSpTab)

/-- One non-overlapping pass of `ReplaceAll("\n\n\n", "\n\n")`. -/
def replTriple : List Nat → List Nat
  | a :: b :: c :: rest =>
    if a = 10 ∧ b = 10 ∧ c = 10 then 10 :: 10 :: replTriple rest
    else a :: replTriple (b :: c :: rest)
  | l => l

/-- Whether the byte string contains three consecutive newlines. -/
def hasTriple : List Nat → Bool
  | a :: b :: c :: rest =>
    (a == 10 && b == 10 && c == 10) || hasTriple (b :: c :: rest)
  | _ => false

/-- The blank-line collapse loop (writer.go lines 293-295), fuel-driven:
each iteration strictly shrinks the string, so fuel = length suffices. -/
def collapseGo : Nat → List Nat → List Nat
  | 0, l => l
  | fuel + 1, l => if hasTriple l then collapseGo fuel (replTriple l) else l

def collapseBlank (l : List Nat) : List Nat := collapseGo l.length l

/-- `cleanLogData` (writer.go lines 247-298): cursor-position rewrite, ANSI
strip, orphaned-fragment strips, CR handling, control scrub, per-line right
trim, blank-line collapse. -/
def cleanLogData (d : List Nat) : List Nat :=
  collapseBlank (trimLines (scrub (crHandle
    (orphanLineScan (orphanScan (ansiScan (cursorScan d)))))))

/-- ASCII decimal digits of a number (fuel-driven division loop). -/
def digitsGo : Nat → Nat → List Nat
  | 0, n => [48 + n % 10]
  | fuel + 1, n =>
    if n < 10 then [48 + n] else digitsGo fuel (n / 10) ++ [48 + n % 10]

def natDigits (n : Nat) : List Nat := digitsGo n n

/-- The bytes of `fmt.Sprintf("(Duplicated %d lines)", n)`. -/
def bannerBody (n : Nat) : List Nat :=
  [40, 68, 117, 112, 108, 105, 99, 97, 116, 101, 100, 32] ++ natDigits n ++
    [32, 108, 105, 110, 101, 115, 41]

/-- The full banner line `"(Duplicated %d lines)\n"`. -/
def bannerBytes (n : Nat) : List Nat := bannerBody n ++ [10]

/-- `recentLines` (writer.go lines 56-67): line → last-seen time plus the
consecutive-suppression counter, with a 10-second TTL. -/
structure RecentLines where
  lines : List (List Nat × Nat)
  dup : Nat

def rlTTL : Nat := 10

/-- Association lookup in the recent-line map. -/
def lookupT (m : List (List Nat × Nat)) (k : List Nat) : Option Nat :=
  match m with
  | [] => none
  | e :: es => if e.1 = k then some e.2 else lookupT es k

/-- `recentLines.checkLine` (writer.go lines 74-104): right-trim the line;
empty lines always write; evict expired entries; on a hit suppress and
refresh; on a miss emit the banner if suppressions are pending, record the
line, and write. -/
def checkLine (rl : RecentLines) (line0 : List Nat) (now : Nat) :
    Bool × List Nat × RecentLines :=
  let line := rtrimSpTab line0
  if line = [] then (true, [], rl)
  else
    let kept := rl.lines.filter (fun e => decide (now - e.2 ≤ rlTTL))
    if (lookupT kept line).isSome then
      (false, [],
       ⟨kept.map (fun e => if e.1 = line then (e.1, now) else e), rl.dup + 1⟩)
    else
      (true, if 0 < rl.dup then bannerBytes rl.dup else [],
       ⟨(line, now) :: kept, 0⟩)

/-- The dedup loop of `Writer.Write` (writer.go lines 213-224): per line,
append the banner (if any) and then the line plus `\n` when it writes. -/
def dedupPass (rl : RecentLines) (now : Nat) (lines : List (List Nat)) :
    RecentLines × List Nat :=
  lines.foldl
    (fun acc line =>
      let r := checkLine acc.1 line now
      (r.2.2, acc.2 ++ r.2.1 ++ (if r.1 then line ++ [10] else [])))
    (rl, [])

/-- Per-server `Writer` state: pending escape tail, last written line,
trailing-newline count, recent-line map. -/
structure WState where
  pending : List Nat
  lastLine : Option (List Nat)
  trailingNL : Nat
  rl : RecentLines

def initW : WState := ⟨[], none, 0, ⟨[], 0⟩⟩

/-- The incomplete-trailing-escape stash of `Writer.Write` (writer.go
lines 147-155): when the data contains an ESC whose tail is at most 5
bytes (ESC included) and does not end in a letter, the tail is buffered as
pending and removed from the chunk.  Returns (new pending, data kept). -/
def stashCalc (data0 : List Nat) : List Nat × List Nat :=
  let post := (data0.reverse.takeWhile (fun c => c != 27)).reverse
  let lastB := post.reverse.headD 27
  if 27 ∈ data0 ∧ post.length ≤ 4 ∧ isAlphaB lastB = false then
    (27 :: post, data0.take (data0.length - (post.length + 1)))
  else ([], data0)

/-- The `lastLine` tracking of `Writer.Write` (writer.go lines 162-182,
minus the single-line early drop handled in `writeTail`): a single-line
chunk records its normalised content; a multi-line chunk records its final
(spinner-trimmed) segment when non-empty. -/
def lastLineUpd (st1 : WState) (content normalized : List Nat) : WState :=
  if content ≠ [] ∧ 10 ∉ content then { st1 with lastLine := some normalized }
  else if content ≠ [] then
    let seg := rtrimSpin (rtrimSpTab
      ((content.reverse.takeWhile (fun c => c != 10)).reverse))
    if seg ≠ [] then { st1 with lastLine := some seg } else st1
  else st1

/-- The cross-write blank-line clamp (writer.go lines 184-201): when the
previous write left trailing newlines and the total of trailing plus
leading newlines exceeds 2, trim the excess (at most all leading newlines)
from the front. -/
def clampNL (prevNL : Nat) (cleaned : List Nat) : List Nat :=
  let leadingNL := (cleaned.takeWhile (fun c => c == 10)).length
  if 0 < prevNL ∧ 2 < prevNL + leadingNL then
    cleaned.drop (min (prevNL + leadingNL - 2) leadingNL)
  else cleaned

/-- The stages of `Writer.Write` after cleaning (writer.go lines 158-243):
early return on empty cleaned data; single-line spinner drop; `lastLine`
update; blank-line clamp; line-level dedup; trailing-newline-count
update. -/
def writeTail (st1 : WState) (cleaned : List Nat) (now : Nat) :
    WState × List Nat :=
  if cleaned = [] then (st1, [])
  else
    let content := cleaned.dropWhile (fun c => c == 10)
    let normalized := rtrimSpin (rtrimSpTab content)
    if (content ≠ [] ∧ 10 ∉ content) ∧ st1.lastLine = some normalized then
      (st1, [])
    else
      let st2 := lastLineUpd st1 content normalized
      let cleaned2 := clampNL st2.trailingNL cleaned
      if cleaned2 = [] then (st2, [])
      else
        let dp := dedupPass st2.rl now (splitNL cleaned2)
        let out :=
          if cleaned2.getLastD 0 ≠ 10 ∧ dp.2 ≠ [] then dp.2.dropLast
          else dp.2
        let st3 : WState := { st2 with rl := dp.1 }
        if out = [] then (st3, [])
        else
          ({ st3 with
             trailingNL := (out.reverse.takeWhile (fun c => c == 10)).length },
           out)

/-- The body of `Writer.Write` (writer.go lines 131-244) after the pending
tail has been prepended: stash an incomplete trailing escape, clean, and
run the remaining stages. -/
def writeCore (st : WState) (data0 : List Nat) (now : Nat) :
    WState × List Nat :=
  writeTail { st with pending := (stashCalc data0).1 }
    (cleanLogData (stashCalc data0).2) now

/-- `Writer.Write` for one server: prepend the pending tail, then run the
body. -/
def writeStep (st : WState) (chunk : List Nat) (now : Nat) :
    WState × List Nat :=
  writeCore { st with pending := [] } (st.pending ++ chunk) now

/-- A sequence of `Write` calls, collecting everything appended to the log
file. -/
def iterWrites (st : WState) : List (List Nat × Nat) → WState × List Nat
  | [] => (st, [])
  | c :: cs =>
    let r := writeStep st c.1 c.2
    let rest := iterWrites r.1 cs
    (rest.1, r.2 ++ rest.2)

/-- A plain console-text byte: printable, not a space, tab, ESC, newline,
carriage return or '[' — bytes the cleaning pipeline passes through
unchanged. -/
def plainByte (c : Nat) : Prop := 33 ≤ c ∧ c ≤ 126 ∧ c ≠ 91

/-- A non-empty line of plain bytes. -/
def plainLine (l : List Nat) : Prop := l ≠ [] ∧ ∀ c ∈ l, plainByte c

/-- The trailing-newline count of an appended block (writer.go
lines 236-240). -/
def trailCnt (l : List Nat) : Nat :=
  (l.reverse.takeWhile (fun c => c == 10)).length

/-! ## Rotation (writer.go lines 300-368) -/

/-- The on-disk state relevant to rotation: the set of log files of one
server (named by their creation timestamp, as `RotateWithName` does with
its `YYYY-MM-DD_HH-MM-SS` name) and the recorded last-rotation time. -/
structure RotState where
  files : List Nat
  lastRotation : Option Nat

/-- `Writer.Rotate` / `RotateWithName` with the default timestamp name:
records the rotation time and opens (creating if absent) the file named by
the current time.  No cooldown check is performed. -/
def rotateW (st : RotState) (now : Nat) : RotState :=
  ⟨if now ∈ st.files then st.files else st.files ++ [now], some now⟩

/-- `Writer.CanRotate` (writer.go lines 301-311): false within 120 s of the
last recorded rotation. -/
def canRotate (st : RotState) (now : Nat) : Bool :=
  match st.lastRotation with
  | none => true
  | some r => decide (120 ≤ now - r)

/-! ## Persistence traces (Analytics.save, Cache.Save) -/

/-- Filesystem operations performed by the two save paths. -/
inductive FsOp where
  | mkdirAll (path : String)
  | writeFile (path : String)
  | rename (src dst : String)
deriving DecidableEq

/-- `Analytics.save` (writer.go appendix, sol package): `os.MkdirAll` on the
data dir, then a direct `os.WriteFile` of `{dataPath}/analytics.json`. -/
def analyticsSaveOps (dataPath : String) : List FsOp :=
  [FsOp.mkdirAll dataPath, FsOp.writeFile (dataPath ++ "/analytics.json")]

/-- `Cache.Save` (src/discovery/cache.go lines 49-79): `os.MkdirAll` on the
parent dir, `os.WriteFile` of `{path}.tmp`, then `os.Rename` over the
target. -/
def cacheSaveOps (dir cachePath : String) : List FsOp :=
  [FsOp.mkdirAll dir, FsOp.writeFile (cachePath ++ ".tmp"),
   FsOp.rename (cachePath ++ ".tmp") cachePath]

/-- A trace rewrites `target` atomically when it never writes `target`
directly and installs it by a rename. -/
def isAtomicRewrite (target : String) (ops : List FsOp) : Bool :=
  ops.all (fun op => match op with
    | .writeFile p => p != target
    | _ => true) &&
  ops.any (fun op => match op with
    | .rename _ d => d == target
    | _ => false)

/-! ## Helper lemmas -/

theorem sha1_length (m : List Nat) : (sha1 m).length = 20 := by
  unfold sha1
  generalize (chunks64 (shaPad m)).foldl sha1Compress
      (0x67452301, 0xEFCDAB89, 0x98BADCFE, 0x10325476, 0xC3D2E1F0) = t
  obtain ⟨a, b, c, d, e⟩ := t
  simp [be32bytes]

theorem sha256_length (m : List Nat) : (sha256 m).length = 32 := by
  unfold sha256
  generalize (chunks64 (shaPad m)).foldl sha256Compress
      ⟨0x6a09e667, 0xbb67ae85, 0x3c6ef372, 0xa54ff53a,
       0x510e527f, 0x9b05688c, 0x1f83d9ab, 0x5be0cd19⟩ = t
  simp [be32bytes]

theorem hmacGeneric_length (hashF : List Nat → List Nat) (n : Nat)
    (hl : ∀ x, (hashF x).length = n) (key msg : List Nat) :
    (hmacGeneric hashF key msg).length = n := by
  unfold hmacGeneric
  exact hl _

theorem hmacHash_length_sha1 (key data : List Nat) :
    (hmacHash 1 key data).length = 20 := by
  unfold hmacHash
  exact hmacGeneric_length sha1 20 sha1_length key data

theorem hmacHash_length_sha256 (key data : List Nat) :
    (hmacHash 3 key data).length = 32 := by
  unfold hmacHash
  exact hmacGeneric_length sha256 32 sha256_length key data

theorem wrapInc8_bounds (x : Nat) (h1 : 1 ≤ x) (h2 : x ≤ 255) :
    1 ≤ wrapInc8 x ∧ wrapInc8 x ≤ 255 := by
  unfold wrapInc8
  by_cases h : x = 255
  · subst h; norm_num
  · have hlt : x + 1 < 256 := by omega
    rw [Nat.mod_eq_of_lt hlt]
    have hne : x + 1 ≠ 0 := by omega
    simp only [hne, if_false]
    omega

theorem packetSeqs_cons (p : List Nat) (ps : List (List Nat)) :
    packetSeqs (p :: ps) = p.getD 0 0 :: packetSeqs ps := rfl

theorem solChunkLoop_head (seq ack m x : Nat) (rest : List Nat) :
    (packetSeqs (solChunkLoop seq ack m (x :: rest))).head? = some seq := by
  rw [solChunkLoop]
  by_cases hgt : (x :: rest).length > m + 1
  · rw [if_pos hgt]; rfl
  · rw [if_neg hgt]; rfl

theorem solChunkLoop_head_mem (seq ack m : Nat) (data : List Nat) (y : Nat)
    (hy : y ∈ (packetSeqs (solChunkLoop seq ack m data)).head?) :
    y = seq := by
  cases data with
  | nil => simp [solChunkLoop, packetSeqs] at hy
  | cons z zs =>
    rw [solChunkLoop_head] at hy
    simp only [Option.mem_def, Option.some.injEq] at hy
    exact hy.symm

theorem solChunkLoop_aux (n : Nat) :
    ∀ (data : List Nat), data.length ≤ n → ∀ (seq ack m : Nat),
      1 ≤ seq → seq ≤ 255 →
      (∀ q ∈ packetSeqs (solChunkLoop seq ack m data), 1 ≤ q ∧ q ≤ 255) ∧
      List.Chain' (fun a b => b = wrapInc8 a)
        (packetSeqs (solChunkLoop seq ack m data)) := by
  induction n with
  | zero =>
    intro data hlen seq ack m h1 h2
    have hd : data = [] := List.length_eq_zero.mp (Nat.le_zero.mp hlen)
    subst hd
    simp [solChunkLoop, packetSeqs]
  | succ n ih =>
    intro data hlen seq ack m h1 h2
    match data with
    | [] => simp [solChunkLoop, packetSeqs]
    | x :: rest =>
      rw [solChunkLoop]
      by_cases hgt : (x :: rest).length > m + 1
      · rw [if_pos hgt]
        have hb := wrapInc8_bounds seq h1 h2
        have hlen2 : ((x :: rest).drop (m + 1)).length ≤ n := by
          simp only [List.length_drop, List.length_cons] at hlen ⊢
          omega
        have hrec := ih ((x :: rest).drop (m + 1)) hlen2 (wrapInc8 seq) ack m
          hb.1 hb.2
        have hg : ([seq, ack, 0, 0] ++ (x :: rest).take (m + 1)).getD 0 0 =
            seq := rfl
        rw [packetSeqs_cons, hg]
        constructor
        · intro q hq
          rcases List.mem_cons.mp hq with hq | hq
          · subst hq; exact ⟨h1, h2⟩
          · exact hrec.1 q hq
        · rw [List.chain'_cons']
          refine ⟨?_, hrec.2⟩
          intro y hy
          exact solChunkLoop_head_mem _ _ _ _ _ hy
      · rw [if_neg hgt]
        constructor
        · intro q hq
          simp [packetSeqs] at hq
          subst hq; exact ⟨h1, h2⟩
        · simp [packetSeqs]

theorem takeWhile_append_all (l l' : List Nat) (q : Nat → Bool)
    (h : ∀ c ∈ l, q c = true) :
    (l ++ l').takeWhile q = l ++ l'.takeWhile q := by
  induction l with
  | nil => simp
  | cons a l ih =>
    simp only [List.cons_append, List.takeWhile_cons]
    rw [h a (List.mem_cons_self a l)]
    simp [ih (fun c hc => h c (List.mem_cons_of_mem a hc))]

theorem cleanLogData_nil : cleanLogData [] = [] := rfl

theorem writeTail_nil (st : WState) (now : Nat) :
    writeTail st [] now = (st, []) := by
  unfold writeTail
  rw [if_pos rfl]

/-! ### Identity lemmas for the cleaning stages on plain text -/

theorem takeWhile_all_false (l : List Nat) (q : Nat → Bool)
    (h : ∀ c ∈ l, q c = false) : l.takeWhile q = [] := by
  cases l with
  | nil => rfl
  | cons a l =>
    simp only [List.takeWhile_cons]
    rw [h a (List.mem_cons_self a l)]
    rfl

theorem dropWhile_all_false (l : List Nat) (q : Nat → Bool)
    (h : ∀ c ∈ l, q c = false) : l.dropWhile q = l := by
  cases l with
  | nil => rfl
  | cons a l =>
    simp only [List.dropWhile_cons]
    rw [h a (List.mem_cons_self a l)]
    rfl

theorem cursorGo_id (fuel : Nat) :
    ∀ l : List Nat, 27 ∉ l → cursorGo fuel l = l := by
  induction fuel with
  | zero => intro l _; rfl
  | succ n ih =>
    intro l h
    cases l with
    | nil => rfl
    | cons c rest =>
      have hc : ¬ (c = 27) := fun e => h (e ▸ List.mem_cons_self c rest)
      simp only [cursorGo, if_neg hc]
      rw [ih rest (fun hm => h (List.mem_cons_of_mem c hm))]

theorem ansiGo_id (fuel : Nat) :
    ∀ l : List Nat, 27 ∉ l → ansiGo fuel l = l := by
  induction fuel with
  | zero => intro l _; rfl
  | succ n ih =>
    intro l h
    cases l with
    | nil => rfl
    | cons c rest =>
      have hc : ¬ (c = 27) := fun e => h (e ▸ List.mem_cons_self c rest)
      simp only [ansiGo, if_neg hc]
      rw [ih rest (fun hm => h (List.mem_cons_of_mem c hm))]

theorem orphanGo_id (fuel : Nat) :
    ∀ l : List Nat, 91 ∉ l → orphanGo fuel l = l := by
  induction fuel with
  | zero => intro l _; rfl
  | succ n ih =>
    intro l h
    cases l with
    | nil => rfl
    | cons c rest =>
      have hc : ¬ (c = 91) := fun e => h (e ▸ List.mem_cons_self c rest)
      simp only [orphanGo, if_neg hc]
      rw [ih rest (fun hm => h (List.mem_cons_of_mem c hm))]

theorem orphanLineGo_id (fuel : Nat) :
    ∀ l : List Nat, 91 ∉ l → orphanLineGo fuel l = l := by
  induction fuel with
  | zero => intro l _; rfl
  | succ n ih =>
    intro l h
    cases l with
    | nil => rfl
    | cons c rest =>
      have hc : ¬ (c = 91) := fun e => h (e ▸ List.mem_cons_self c rest)
      simp only [orphanLineGo, if_neg hc]
      rw [ih rest (fun hm => h (List.mem_cons_of_mem c hm))]

theorem crHandle_id (l : List Nat) (h : 13 ∉ l) : crHandle l = l := by
  unfold crHandle
  rw [if_neg h]

theorem scrub_id (l : List Nat) (h : ∀ c ∈ l, goodByteB c = true) :
    scrub l = l :=
  List.filter_eq_self.mpr h

theorem rtrimSpTab_id (l : List Nat) (h : ∀ c ∈ l, c ≠ 32 ∧ c ≠ 9) :
    rtrimSpTab l = l := by
  unfold rtrimSpTab
  rw [dropWhile_all_false _ _ (fun c hc => by
    have hcl := h c (List.mem_reverse.mp hc)
    simp only [Bool.or_eq_false_iff, beq_eq_false_iff_ne, ne_eq]
    exact ⟨hcl.1, hcl.2⟩)]
  exact List.reverse_reverse l

theorem splitNL_cons_nl (r : List Nat) : splitNL (10 :: r) = [] :: splitNL r := by
  simp [splitNL]

theorem splitNL_noNL_append (X r : List Nat) (h : ∀ c ∈ X, c ≠ 10) :
    splitNL (X ++ 10 :: r) = X :: splitNL r := by
  induction X with
  | nil => simp [splitNL]
  | cons a X ih =>
    have ha : ¬ (a = 10) := h a (List.mem_cons_self a X)
    have ih' := ih (fun c hc => h c (List.mem_cons_of_mem a hc))
    simp only [List.cons_append, splitNL, if_neg ha, List.append_eq, ih']

theorem splitNL_noNL (X : List Nat) (h : ∀ c ∈ X, c ≠ 10) :
    splitNL X = [X] := by
  induction X with
  | nil => rfl
  | cons a X ih =>
    have ha : ¬ (a = 10) := h a (List.mem_cons_self a X)
    simp only [splitNL, if_neg ha]
    rw [ih (fun c hc => h c (List.mem_cons_of_mem a hc))]

theorem splitNL_replicate (k : Nat) (r : List Nat) :
    splitNL (List.replicate k 10 ++ r) =
      List.replicate k ([] : List Nat) ++ splitNL r := by
  induction k with
  | zero => rfl
  | succ n ih => simp [List.replicate_succ, splitNL_cons_nl, ih]

theorem hasTriple_noNL_single (X : List Nat) (h : ∀ c ∈ X, c ≠ 10) :
    hasTriple (X ++ [10]) = false := by
  induction X with
  | nil => rfl
  | cons a X ih =>
    have ha : a ≠ 10 := h a (List.mem_cons_self a X)
    have ih' := ih (fun c hc => h c (List.mem_cons_of_mem a hc))
    cases X with
    | nil => rfl
    | cons b Y =>
      cases Y with
      | nil =>
        have hb : b ≠ 10 := h b (by simp)
        simp [hasTriple, ha, hb]
      | cons e Z =>
        have hb : b ≠ 10 := h b (by simp)
        simp only [List.cons_append] at ih' ⊢
        simp only [hasTriple, ih']
        simp [ha]

theorem collapseGo_id (fuel : Nat) (l : List Nat)
    (h : hasTriple l = false) : collapseGo fuel l = l := by
  cases fuel with
  | zero => rfl
  | succ n => simp [collapseGo, h]

theorem plain_ne_nl (X : List Nat) (hb : ∀ c ∈ X, plainByte c) :
    ∀ c ∈ X, c ≠ 10 := by
  intro c hc
  rcases hb c hc with ⟨h1, -, -⟩
  omega

theorem clean_plain (X : List Nat) (hX : plainLine X) :
    cleanLogData (X ++ [10]) = X ++ [10] := by
  obtain ⟨hne, hb⟩ := hX
  have h27 : (27 : Nat) ∉ X ++ [10] := by
    intro hm
    rcases List.mem_append.mp hm with hm | hm
    · rcases hb 27 hm with ⟨h1, -, -⟩; omega
    · simp at hm
  have h91 : (91 : Nat) ∉ X ++ [10] := by
    intro hm
    rcases List.mem_append.mp hm with hm | hm
    · rcases hb 91 hm with ⟨-, -, h3⟩; exact h3 rfl
    · simp at hm
  have h13 : (13 : Nat) ∉ X ++ [10] := by
    intro hm
    rcases List.mem_append.mp hm with hm | hm
    · rcases hb 13 hm with ⟨h1, -, -⟩; omega
    · simp at hm
  have hgood : ∀ c ∈ X ++ [10], goodByteB c = true := by
    intro c hm
    rcases List.mem_append.mp hm with hm | hm
    · rcases hb c hm with ⟨h1, h2, -⟩
      simp only [goodByteB, Bool.or_eq_true, beq_iff_eq, Bool.and_eq_true,
        decide_eq_true_eq]
      omega
    · simp at hm
      simp [goodByteB, hm]
  have hno10 : ∀ c ∈ X, c ≠ 10 := plain_ne_nl X hb
  have hsp : ∀ c ∈ X, c ≠ 32 ∧ c ≠ 9 := by
    intro c hc
    rcases hb c hc with ⟨h1, -, -⟩
    omega
  unfold cleanLogData cursorScan ansiScan orphanScan orphanLineScan
  rw [cursorGo_id _ _ h27, ansiGo_id _ _ h27, orphanGo_id _ _ h91,
    orphanLineGo_id _ _ h91, crHandle_id _ h13, scrub_id _ hgood]
  unfold trimLines
  rw [show X ++ [10] = X ++ 10 :: [] from rfl, splitNL_noNL_append X [] hno10]
  rw [show splitNL [] = [[]] from rfl]
  simp only [List.map_cons, List.map_nil]
  rw [rtrimSpTab_id X hsp]
  rw [show rtrimSpTab [] = [] from rfl]
  have hj : joinNL [X, []] = X ++ [10] := rfl
  rw [hj]
  unfold collapseBlank
  exact collapseGo_id _ _ (hasTriple_noNL_single X hno10)

theorem getLastD_concat (l : List Nat) (a d : Nat) :
    (l ++ [a]).getLastD d = a := by
  cases l with
  | nil => rfl
  | cons b m =>
    rw [List.getLastD_eq_getLast?, List.getLast?_concat]
    rfl

theorem trailCnt_append_rep (A : List Nat) (c k : Nat) (hc : c ≠ 10) :
    trailCnt (A ++ c :: List.replicate k 10) = k := by
  unfold trailCnt
  rw [List.reverse_append, List.reverse_cons, List.reverse_replicate]
  rw [List.append_assoc]
  rw [takeWhile_append_all _ _ _ (fun x hx => by
    have hx10 := List.eq_of_mem_replicate hx
    simp [hx10])]
  have htail : (([c] ++ A.reverse : List Nat)).takeWhile
      (fun x => x == 10) = [] := by
    rw [show ([c] ++ A.reverse : List Nat) = c :: A.reverse from rfl]
    simp only [List.takeWhile_cons]
    rw [show ((c == 10) = false) from by simp [hc]]
    simp
  rw [htail]
  simp

/-! ### Evaluation lemmas for plain-line writes -/

theorem plain_no_esc (X : List Nat) (hX : plainLine X) :
    (27 : Nat) ∉ X ++ [10] := by
  intro hm
  rcases List.mem_append.mp hm with hm | hm
  · rcases hX.2 27 hm with ⟨h1, -, -⟩; omega
  · simp at hm

theorem stashCalc_noesc (d : List Nat) (h : 27 ∉ d) : stashCalc d = ([], d) := by
  unfold stashCalc
  rw [if_neg (fun hc => h hc.1)]

theorem rtrim_plain (X : List Nat) (hX : plainLine X) : rtrimSpTab X = X :=
  rtrimSpTab_id X (fun c hc => by
    rcases hX.2 c hc with ⟨h1, -, -⟩; omega)

theorem checkLine_nilline (rl : RecentLines) (t : Nat) :
    checkLine rl [] t = (true, [], rl) := rfl

theorem checkLine_first (L : List Nat) (hL : plainLine L) (t : Nat) :
    checkLine (RecentLines.mk [] 0) L t = (true, [], ⟨[(L, t)], 0⟩) := by
  unfold checkLine
  rw [rtrim_plain L hL, if_neg hL.1]
  simp [lookupT]

theorem checkLine_dup (L : List Nat) (hL : plainLine L) (s t j : Nat)
    (hts : t - s ≤ rlTTL) :
    checkLine (RecentLines.mk [(L, s)] j) L t =
      (false, [], ⟨[(L, t)], j + 1⟩) := by
  unfold checkLine
  rw [rtrim_plain L hL, if_neg hL.1]
  simp [lookupT, List.filter, hts]

theorem checkLine_miss (L M : List Nat) (hM : plainLine M) (hne : L ≠ M)
    (s t j : Nat) (hts : t - s ≤ rlTTL) (hj : 0 < j) :
    checkLine (RecentLines.mk [(L, s)] j) M t =
      (true, bannerBytes j, ⟨[(M, t), (L, s)], 0⟩) := by
  unfold checkLine
  rw [rtrim_plain M hM, if_neg hM.1]
  simp [lookupT, List.filter, hts, hne, hj]

theorem dedupPass_pair (rl : RecentLines) (t : Nat) (X : List Nat) :
    dedupPass rl t [X, []] =
      ((checkLine rl X t).2.2,
       (checkLine rl X t).2.1 ++
         (if (checkLine rl X t).1 then X ++ [10] else []) ++ [10]) := by
  unfold dedupPass
  simp only [List.foldl_cons, List.foldl_nil, checkLine_nilline]
  simp

theorem writeTail_plain (st1 : WState) (X : List Nat) (t : Nat)
    (hX : plainLine X) (htnl : st1.trailingNL ≤ 2) :
    writeTail st1 (X ++ [10]) t =
      (if (dedupPass st1.rl t [X, []]).2 = []
       then ({ st1 with rl := (dedupPass st1.rl t [X, []]).1 }, [])
       else ({ st1 with
                 rl := (dedupPass st1.rl t [X, []]).1,
                 trailingNL := trailCnt (dedupPass st1.rl t [X, []]).2 },
             (dedupPass st1.rl t [X, []]).2)) := by
  obtain ⟨x, X', rfl⟩ : ∃ x X', X = x :: X' := by
    cases X with
    | nil => exact absurd rfl hX.1
    | cons x X' => exact ⟨x, X', rfl⟩
  have hx10 : ¬ (x = 10) := by
    rcases hX.2 x (List.mem_cons_self x X') with ⟨h1, -, -⟩; omega
  have hx10b : ((x == 10) = false) := by simp [hx10]
  have hno10 : ∀ c ∈ x :: X', c ≠ 10 := plain_ne_nl _ hX.2
  have hcne : (x :: X') ++ [10] ≠ [] := by simp
  have hcontent : ((x :: X') ++ [10]).dropWhile (fun c => c == 10) =
      (x :: X') ++ [10] := by
    simp only [List.cons_append, List.dropWhile_cons, hx10b]
    rfl
  have h10mem : (10 : Nat) ∈ (x :: X') ++ [10] := by simp
  have hlead : ((x :: X') ++ [10]).takeWhile (fun c => c == 10) = [] := by
    simp only [List.cons_append, List.takeWhile_cons, hx10b]
    rfl
  have hsplit : splitNL ((x :: X') ++ [10]) = [x :: X', []] := by
    rw [show (x :: X') ++ [10] = (x :: X') ++ 10 :: [] from rfl,
      splitNL_noNL_append _ _ hno10]
    rfl
  have hlast : ((x :: X') ++ [10]).getLastD 0 = 10 := getLastD_concat _ _ _
  unfold writeTail
  rw [if_neg hcne]
  rw [hcontent]
  rw [if_neg (fun hcon => hcon.1.2 h10mem)]
  have hupd : lastLineUpd st1 ((x :: X') ++ [10])
      (rtrimSpin (rtrimSpTab ((x :: X') ++ [10]))) = st1 := by
    unfold lastLineUpd
    rw [if_neg (fun hcon => hcon.2 h10mem)]
    rw [if_pos hcne]
    have hrev : (((x :: X') ++ [10]).reverse.takeWhile
        (fun c => c != 10)).reverse = ([] : List Nat) := by
      rw [List.reverse_append]
      simp only [List.reverse_cons, List.reverse_nil, List.nil_append,
        List.cons_append, List.takeWhile_cons]
      simp
    rw [hrev]
    simp
    intro hcon
    exact absurd rfl hcon
  rw [hupd]
  have hclamp : clampNL st1.trailingNL ((x :: X') ++ [10]) =
      (x :: X') ++ [10] := by
    unfold clampNL
    rw [hlead]
    rw [if_neg (by simp; omega)]
  simp only [hclamp, hsplit]
  rw [if_neg hcne]
  have hout : (if ((x :: X' ++ [10]).getLastD 0 ≠ 10 ∧
      (dedupPass st1.rl t [x :: X', []]).2 ≠ []) then
        (dedupPass st1.rl t [x :: X', []]).2.dropLast
      else (dedupPass st1.rl t [x :: X', []]).2) =
      (dedupPass st1.rl t [x :: X', []]).2 :=
    if_neg (fun hcon => hcon.1 hlast)
  rw [hout]
  rfl

theorem trailCnt_plain_rep (X : List Nat) (hX : plainLine X) (k : Nat) :
    trailCnt (X ++ List.replicate k 10) = k := by
  rcases List.eq_nil_or_concat X with h | ⟨Y, c, h⟩
  · exact absurd h hX.1
  · rw [List.concat_eq_append] at h
    subst h
    have hc : c ≠ 10 := by
      rcases hX.2 c (by simp) with ⟨h1, -, -⟩; omega
    rw [List.append_assoc]
    rw [show ([c] ++ List.replicate k 10 : List Nat) =
      c :: List.replicate k 10 from rfl]
    exact trailCnt_append_rep Y c k hc

theorem trailCnt_append_plain_rep (A X : List Nat) (hX : plainLine X)
    (k : Nat) : trailCnt (A ++ (X ++ List.replicate k 10)) = k := by
  rcases List.eq_nil_or_concat X with h | ⟨Y, c, h⟩
  · exact absurd h hX.1
  · rw [List.concat_eq_append] at h
    subst h
    have hc : c ≠ 10 := by
      rcases hX.2 c (by simp) with ⟨h1, -, -⟩; omega
    rw [List.append_assoc]
    rw [show ([c] ++ List.replicate k 10 : List Nat) =
      c :: List.replicate k 10 from rfl]
    rw [← List.append_assoc]
    exact trailCnt_append_rep (A ++ Y) c k hc

theorem writeTail_plain_ne (st1 : WState) (X : List Nat) (t : Nat)
    (hX : plainLine X) (htnl : st1.trailingNL ≤ 2)
    (hne : (dedupPass st1.rl t [X, []]).2 ≠ []) :
    writeTail st1 (X ++ [10]) t =
      ({ st1 with
           rl := (dedupPass st1.rl t [X, []]).1,
           trailingNL := trailCnt (dedupPass st1.rl t [X, []]).2 },
       (dedupPass st1.rl t [X, []]).2) := by
  rw [writeTail_plain st1 X t hX htnl]
  rw [if_neg hne]

theorem writeStep_plain_first (L : List Nat) (t : Nat) (hL : plainLine L) :
    writeStep initW (L ++ [10]) t =
      (WState.mk [] none 2 (RecentLines.mk [(L, t)] 0), L ++ [10, 10]) := by
  have hdp : dedupPass (WState.mk [] none 0 (RecentLines.mk [] 0)).rl t
      [L, []] = (RecentLines.mk [(L, t)] 0, L ++ [10, 10]) := by
    rw [show (WState.mk [] none 0 (RecentLines.mk [] 0)).rl =
      RecentLines.mk [] 0 from rfl]
    rw [dedupPass_pair, checkLine_first L hL t]
    simp
  have h1 : writeStep initW (L ++ [10]) t =
      writeTail (WState.mk [] none 0 (RecentLines.mk [] 0))
        (cleanLogData (L ++ [10])) t := by
    show writeCore (WState.mk [] none 0 (RecentLines.mk [] 0))
        ([] ++ (L ++ [10])) t = _
    rw [List.nil_append]
    unfold writeCore
    rw [stashCalc_noesc _ (plain_no_esc L hL)]
  rw [h1, clean_plain L hL]
  rw [writeTail_plain_ne _ L t hL (by norm_num) (by rw [hdp]; simp)]
  rw [hdp]
  have htc : trailCnt (L ++ [10, 10]) = 2 := by
    simpa using trailCnt_plain_rep L hL 2
  simp [htc]

theorem writeStep_plain_dup (L : List Nat) (t0 t p j : Nat) (hL : plainLine L)
    (hp : p ≤ 2) (hts : t - t0 ≤ rlTTL) :
    writeStep (WState.mk [] none p (RecentLines.mk [(L, t0)] j))
        (L ++ [10]) t =
      (WState.mk [] none 1 (RecentLines.mk [(L, t)] (j + 1)), [10]) := by
  have hdp : dedupPass
      (WState.mk [] none p (RecentLines.mk [(L, t0)] j)).rl t [L, []] =
      (RecentLines.mk [(L, t)] (j + 1), [10]) := by
    rw [show (WState.mk [] none p (RecentLines.mk [(L, t0)] j)).rl =
      RecentLines.mk [(L, t0)] j from rfl]
    rw [dedupPass_pair, checkLine_dup L hL t0 t j hts]
    simp
  have h1 : writeStep (WState.mk [] none p (RecentLines.mk [(L, t0)] j))
      (L ++ [10]) t =
      writeTail (WState.mk [] none p (RecentLines.mk [(L, t0)] j))
        (cleanLogData (L ++ [10])) t := by
    show writeCore (WState.mk [] none p (RecentLines.mk [(L, t0)] j))
        ([] ++ (L ++ [10])) t = _
    rw [List.nil_append]
    unfold writeCore
    rw [stashCalc_noesc _ (plain_no_esc L hL)]
  rw [h1, clean_plain L hL]
  rw [writeTail_plain_ne _ L t hL hp (by rw [hdp]; simp)]
  rw [hdp]
  have htc : trailCnt ([10] : List Nat) = 1 := rfl
  simp [htc]

theorem writeStep_plain_miss (L M : List Nat) (t0 t j : Nat)
    (hM : plainLine M) (hne : L ≠ M) (hts : t - t0 ≤ rlTTL) (hj : 0 < j) :
    writeStep (WState.mk [] none 1 (RecentLines.mk [(L, t0)] j))
        (M ++ [10]) t =
      (WState.mk [] none 2 (RecentLines.mk [(M, t), (L, t0)] 0),
       bannerBytes j ++ (M ++ [10, 10])) := by
  have hdp : dedupPass
      (WState.mk [] none 1 (RecentLines.mk [(L, t0)] j)).rl t [M, []] =
      (RecentLines.mk [(M, t), (L, t0)] 0,
       bannerBytes j ++ (M ++ [10, 10])) := by
    rw [show (WState.mk [] none 1 (RecentLines.mk [(L, t0)] j)).rl =
      RecentLines.mk [(L, t0)] j from rfl]
    rw [dedupPass_pair, checkLine_miss L M hM hne t0 t j hts hj]
    simp
  have h1 : writeStep (WState.mk [] none 1 (RecentLines.mk [(L, t0)] j))
      (M ++ [10]) t =
      writeTail (WState.mk [] none 1 (RecentLines.mk [(L, t0)] j))
        (cleanLogData (M ++ [10])) t := by
    show writeCore (WState.mk [] none 1 (RecentLines.mk [(L, t0)] j))
        ([] ++ (M ++ [10])) t = _
    rw [List.nil_append]
    unfold writeCore
    rw [stashCalc_noesc _ (plain_no_esc M hM)]
  rw [h1, clean_plain M hM]
  rw [writeTail_plain_ne _ M t hM (by norm_num)
    (by rw [hdp]; simp [bannerBytes])]
  rw [hdp]
  have htc : trailCnt (bannerBytes j ++ (M ++ [10, 10])) = 2 := by
    simpa using trailCnt_append_plain_rep (bannerBytes j) M hM 2
  simp [htc]

theorem iterWrites_append (as bs : List (List Nat × Nat)) :
    ∀ st : WState, iterWrites st (as ++ bs) =
      ((iterWrites (iterWrites st as).1 bs).1,
       (iterWrites st as).2 ++ (iterWrites (iterWrites st as).1 bs).2) := by
  induction as with
  | nil => intro st; simp [iterWrites]
  | cons c cs ih =>
    intro st
    simp only [List.cons_append, iterWrites, List.append_eq]
    rw [ih]
    simp [List.append_assoc]

theorem iterWrites_single (st : WState) (c : List Nat × Nat) :
    iterWrites st [c] = ((writeStep st c.1 c.2).1, (writeStep st c.1 c.2).2) := by
  simp [iterWrites]

theorem iterWrites_cons_eval (st st' stF : WState) (ap apF : List Nat)
    (c : List Nat × Nat) (cs : List (List Nat × Nat))
    (h : writeStep st c.1 c.2 = (st', ap))
    (hrest : iterWrites st' cs = (stF, apF)) :
    iterWrites st (c :: cs) = (stF, ap ++ apF) := by
  have hW : iterWrites st (c :: cs) =
      ((iterWrites (writeStep st c.1 c.2).1 cs).1,
       (writeStep st c.1 c.2).2 ++
         (iterWrites (writeStep st c.1 c.2).1 cs).2) := rfl
  rw [hW, h]
  rw [show ((st', ap) : WState × List Nat).1 = st' from rfl,
    show ((st', ap) : WState × List Nat).2 = ap from rfl]
  rw [hrest]

theorem iterWrites_single_eval (st st' : WState) (ap : List Nat)
    (c : List Nat × Nat) (h : writeStep st c.1 c.2 = (st', ap)) :
    iterWrites st [c] = (st', ap) := by
  have hW : iterWrites st [c] =
      ((iterWrites (writeStep st c.1 c.2).1 []).1,
       (writeStep st c.1 c.2).2 ++
         (iterWrites (writeStep st c.1 c.2).1 []).2) := rfl
  rw [hW, h]
  rw [show ((st', ap) : WState × List Nat).1 = st' from rfl,
    show ((st', ap) : WState × List Nat).2 = ap from rfl]
  simp [iterWrites]

theorem iterWrites_append_eval (st stA stB : WState) (apA apB : List Nat)
    (as bs : List (List Nat × Nat))
    (hA : iterWrites st as = (stA, apA))
    (hB : iterWrites stA bs = (stB, apB)) :
    iterWrites st (as ++ bs) = (stB, apA ++ apB) := by
  have h := iterWrites_append as bs st
  rw [hA] at h
  rw [show ((stA, apA) : WState × List Nat).1 = stA from rfl,
    show ((stA, apA) : WState × List Nat).2 = apA from rfl] at h
  rw [hB] at h
  rw [show ((stB, apB) : WState × List Nat).1 = stB from rfl,
    show ((stB, apB) : WState × List Nat).2 = apB from rfl] at h
  exact h

theorem iterWrites_mid (L : List Nat) (t : Nat) (hL : plainLine L) :
    ∀ (k j : Nat),
      iterWrites (WState.mk [] none 1 (RecentLines.mk [(L, t)] j))
          (List.replicate k (L ++ [10], t)) =
        (WState.mk [] none 1 (RecentLines.mk [(L, t)] (j + k)),
         List.replicate k 10) := by
  intro k
  induction k with
  | zero => intro j; simp [iterWrites]
  | succ n ih =>
    intro j
    rw [List.replicate_succ]
    simp only [iterWrites]
    rw [writeStep_plain_dup L t t 1 j hL (by norm_num) (by omega)]
    rw [ih (j + 1)]
    have hn : j + 1 + n = j + (n + 1) := by omega
    rw [hn]
    simp [List.replicate_succ]

theorem digitsGo_bound (fuel : Nat) :
    ∀ n c, c ∈ digitsGo fuel n → 48 ≤ c ∧ c ≤ 57 := by
  induction fuel with
  | zero =>
    intro n c hc
    simp [digitsGo] at hc
    have : n % 10 < 10 := Nat.mod_lt n (by omega)
    omega
  | succ m ih =>
    intro n c hc
    unfold digitsGo at hc
    by_cases h : n < 10
    · rw [if_pos h] at hc
      simp at hc
      omega
    · rw [if_neg h] at hc
      rcases List.mem_append.mp hc with hc | hc
      · exact ih (n / 10) c hc
      · simp at hc
        have : n % 10 < 10 := Nat.mod_lt n (by omega)
        omega

theorem bannerBody_noNL (n : Nat) : ∀ c ∈ bannerBody n, c ≠ 10 := by
  intro c hc
  unfold bannerBody at hc
  rcases List.mem_append.mp hc with hc | hc
  · rcases List.mem_append.mp hc with hc | hc
    · intro he; subst he; simp at hc
    · have := digitsGo_bound n n c hc
      omega
  · intro he; subst he; simp at hc

/-! ## Claim theorems -/

/-- Claim C9 (confirmed): the key derivations have exactly the claimed
structure — SIK = HMAC_kg(Rm ∥ Rc ∥ role ∥ ulen ∥ username),
K1 = HMAC_SIK(0x01 × 20), K2 = HMAC_SIK(0x02 × 20) — each derivation is
deterministic, and each output is 20 bytes under HMAC-SHA-1 (algorithm 1)
and 32 bytes under HMAC-SHA-256 (algorithm 3). -/
theorem c9_key_derivation :
    (∀ alg kg rm rc role u, generateSIK alg kg rm rc role u =
        hmacHash alg kg (rm ++ rc ++ [role] ++ [u.length % 256] ++ u)) ∧
    (∀ alg sik, generateK1 alg sik =
        hmacHash alg sik (List.replicate 20 0x01)) ∧
    (∀ alg sik, generateK2 alg sik =
        hmacHash alg sik (List.replicate 20 0x02)) ∧
    (∀ alg kg rm rc role u,
        generateSIK alg kg rm rc role u = generateSIK alg kg rm rc role u) ∧
    (∀ kg rm rc role u, (generateSIK 1 kg rm rc role u).length = 20 ∧
        (generateSIK 3 kg rm rc role u).length = 32) ∧
    (∀ sik, (generateK1 1 sik).length = 20 ∧ (generateK2 1 sik).length = 20 ∧
        (generateK1 3 sik).length = 32 ∧ (generateK2 3 sik).length = 32) := by
  refine ⟨fun alg kg rm rc role u => rfl, fun alg sik => rfl,
    fun alg sik => rfl, fun alg kg rm rc role u => rfl, ?_, ?_⟩
  · exact fun kg rm rc role u =>
      ⟨hmacHash_length_sha1 _ _, hmacHash_length_sha256 _ _⟩
  · exact fun sik =>
      ⟨hmacHash_length_sha1 _ _, hmacHash_length_sha1 _ _,
       hmacHash_length_sha256 _ _, hmacHash_length_sha256 _ _⟩

/-- Claim C1, counterexample: with integrity HMAC-SHA1 negotiated, two
successively built outbound SOL packets carry the same (zero) session
sequence, so the sequence does not increase monotonically. -/
theorem c1_session_seq_counterexample :
    (SolSession.mk 1 0 []).integrityAlg ≠ 0 ∧
    ¬ (sessionSeqVal (buildSolPacket (SolSession.mk 1 0 []) [65]) <
       sessionSeqVal (buildSolPacket (SolSession.mk 1 0 []) [66])) := by
  decide

/-- Claim C1 (amended): the session sequence field of every outbound SOL
packet is zero — `buildSolPacket` hardcodes `Sequence: 0` ("SOL doesn't use
session sequence"), whether or not an integrity algorithm is negotiated;
only the integrity trailer is recomputed per packet. -/
theorem c1_session_seq_amended (s : SolSession) (payload : List Nat) :
    sessionSeqField (buildSolPacket s payload) = [0, 0, 0, 0] := by
  unfold buildSolPacket
  by_cases h : s.integrityAlg = 0
  · have h' : ¬ (s.integrityAlg ≠ 0) := by simp [h]
    simp only [if_neg h']
    rfl
  · simp only [if_pos h]
    rfl

/-- Claim C3 (confirmed): the packet sequence numbers emitted by
`sendSolData` are never 0 and stay in [1,255]; consecutive split packets
are chained by the wrapping increment; the wrap sends 255 to 1; and the
stored sequence for the next call stays in [1,255], so the invariant also
holds across successive calls. -/
theorem c3_outbound_seq (st : SolWState) (data : List Nat)
    (h1 : 1 ≤ st.solSeqNum) (h2 : st.solSeqNum ≤ 255) :
    (∀ q ∈ packetSeqs (sendSolData st data).2, q ≠ 0) ∧
    List.Chain' (fun a b => b = wrapInc8 a)
      (packetSeqs (sendSolData st data).2) ∧
    wrapInc8 255 = 1 ∧
    1 ≤ (sendSolData st data).1.solSeqNum ∧
    (sendSolData st data).1.solSeqNum ≤ 255 := by
  have haux := solChunkLoop_aux data.length data le_rfl st.solSeqNum
    st.ackSeqNum ((if st.maxOutbound < 5 then 200 else st.maxOutbound - 4) - 1)
    h1 h2
  have hb := wrapInc8_bounds st.solSeqNum h1 h2
  refine ⟨?_, ?_, by norm_num [wrapInc8], ?_, ?_⟩
  · intro q hq
    have := (haux.1 q (by simpa [sendSolData] using hq)).1
    omega
  · simpa [sendSolData] using haux.2
  · simpa [sendSolData] using hb.1
  · simpa [sendSolData] using hb.2

/-- Witness for C3 at a concrete state: sequence 254, maxOutbound 6,
a 5-byte chunk that splits into three packets (254, 255, 1). -/
theorem c3_outbound_seq_witness :
    (∀ q ∈ packetSeqs (sendSolData (SolWState.mk 254 0 6) [1, 2, 3, 4, 5]).2,
        q ≠ 0) ∧
    List.Chain' (fun a b => b = wrapInc8 a)
      (packetSeqs (sendSolData (SolWState.mk 254 0 6) [1, 2, 3, 4, 5]).2) ∧
    wrapInc8 255 = 1 ∧
    1 ≤ (sendSolData (SolWState.mk 254 0 6) [1, 2, 3, 4, 5]).1.solSeqNum ∧
    (sendSolData (SolWState.mk 254 0 6) [1, 2, 3, 4, 5]).1.solSeqNum ≤ 255 :=
  c3_outbound_seq (SolWState.mk 254 0 6) [1, 2, 3, 4, 5] (by decide) (by decide)

/-- Claim C8, counterexample: when the 10000-entry queue is full the read
pump drops the datagram's data rather than enqueue it — `tryEnqueue` on a
full queue returns the queue unchanged and the data never appears. -/
theorem c8_queue_counterexample :
    tryEnqueue (List.replicate 10000 [0]) [7] = List.replicate 10000 [0] ∧
    [7] ∉ List.replicate 10000 ([0] : List Nat) := by
  constructor
  · unfold tryEnqueue solQueueCap
    rw [List.length_replicate]
    rw [if_neg (by norm_num)]
  · intro hmem
    rcases List.mem_replicate.mp hmem with ⟨-, h7⟩
    exact absurd h7 (by decide)

/-- Claim C8 (amended): the read pump enqueues received SOL character data
only while the internal queue holds fewer than 10000 entries; at capacity
the `select` default drops the data (the pump itself never blocks). -/
theorem c8_queue_amended (q : List (List Nat)) (d : List Nat) :
    (q.length < solQueueCap → tryEnqueue q d = q ++ [d]) ∧
    (solQueueCap ≤ q.length → tryEnqueue q d = q) := by
  constructor
  · intro h; simp [tryEnqueue, h]
  · intro h; simp [tryEnqueue, Nat.not_lt.mpr h]

/-- Witness for C8 at a concrete queue with free space. -/
theorem c8_queue_witness : tryEnqueue [] [5] = [] ++ [[5]] :=
  (c8_queue_amended [] [5]).1 (by decide)

/-- Claim C10, counterexample: `Analytics.save` writes
`{dataPath}/analytics.json` directly with `os.WriteFile` — its operation
trace is not an atomic temp-plus-rename rewrite of the target. -/
theorem c10_persistence_counterexample :
    isAtomicRewrite "/data/analytics.json" (analyticsSaveOps "/data") =
      false := by
  decide

/-- Claim C10 (amended): the inventory cache save is an atomic rewrite
(write `{path}.tmp`, then rename over the target), but the analytics save
writes `analytics.json` directly and is not atomic. -/
theorem c10_persistence_amended (dir cachePath dataPath : String) :
    isAtomicRewrite cachePath (cacheSaveOps dir cachePath) = true ∧
    isAtomicRewrite (dataPath ++ "/analytics.json")
      (analyticsSaveOps dataPath) = false := by
  constructor
  · have hne : cachePath ++ ".tmp" ≠ cachePath := by
      intro h
      have h2 := congrArg String.length h
      rw [String.length_append] at h2
      have h3 : (".tmp" : String).length = 4 := rfl
      omega
    simp [isAtomicRewrite, cacheSaveOps, hne]
  · simp [isAtomicRewrite, analyticsSaveOps]

/-- Claim C7, counterexample: a second `Rotate` 10 seconds after the first
changes the on-disk file set (a new timestamped file is created), even
though `CanRotate` would report false — the cooldown is not applied by
`Rotate`. -/
theorem c7_rotate_counterexample :
    (rotateW (rotateW (RotState.mk [] none) 0) 10).files ≠
      (rotateW (RotState.mk [] none) 0).files ∧
    canRotate (rotateW (RotState.mk [] none) 0) 10 = false := by
  decide

/-- Claim C7 (amended): `CanRotate` reports false within 120 s of the last
recorded rotation, but `Rotate` itself enforces no cooldown: it always
rotates, adding a new file to the on-disk set whenever the generated
timestamp name does not already exist there (and leaving the set unchanged
only when it does). -/
theorem c7_rotate_amended (st : RotState) (t1 t2 : Nat)
    (h : t2 - t1 < 120) :
    canRotate (rotateW st t1) t2 = false ∧
    (∀ st' : RotState, t2 ∉ st'.files →
        (rotateW st' t2).files = st'.files ++ [t2]) ∧
    (∀ st' : RotState, t2 ∈ st'.files →
        (rotateW st' t2).files = st'.files) := by
  refine ⟨?_, ?_, ?_⟩
  · simp only [canRotate, rotateW]
    simp
    omega
  · intro st' h'; simp [rotateW, h']
  · intro st' h'; simp [rotateW, h']

/-- Claim C6 (confirmed): N identical plain non-empty lines delivered to
`Write` at the same instant (within the 10 s TTL), followed by a different
line M, append exactly one copy of L — followed by the blank bytes the
writer emits for the suppressed repeats — then the banner
"(Duplicated N-1 lines)\n" immediately before M, and the duplicate counter
ends at zero.  The third conjunct states the exact-one-copy property:
L occurs exactly once among the lines of everything appended. -/
theorem c6_duplicate_suppression (N : Nat) (L M : List Nat) (t : Nat)
    (hN : 2 ≤ N) (hL : plainLine L) (hM : plainLine M) (hLM : L ≠ M)
    (hLb : L ≠ bannerBody (N - 1)) :
    (iterWrites initW
        (List.replicate N (L ++ [10], t) ++ [(M ++ [10], t)])).2 =
      L ++ [10, 10] ++ List.replicate (N - 1) 10 ++ bannerBytes (N - 1) ++
        (M ++ [10, 10]) ∧
    (iterWrites initW
        (List.replicate N (L ++ [10], t) ++ [(M ++ [10], t)])).1.rl.dup
      = 0 ∧
    (splitNL (iterWrites initW
        (List.replicate N (L ++ [10], t) ++ [(M ++ [10], t)])).2).count L
      = 1 := by
  obtain ⟨k, rfl⟩ : ∃ k, N = k + 2 := ⟨N - 2, by omega⟩
  have hco : 1 + k = k + 1 := by omega
  have hlast := iterWrites_single_eval
    (WState.mk [] none 1 (RecentLines.mk [(L, t)] (1 + k)))
    (WState.mk [] none 2 (RecentLines.mk [(M, t), (L, t)] 0))
    (bannerBytes (1 + k) ++ (M ++ [10, 10])) ((M ++ [10], t))
    (writeStep_plain_miss L M t t (1 + k) hM hLM (by omega) (by omega))
  have hmid := iterWrites_append_eval
    (WState.mk [] none 1 (RecentLines.mk [(L, t)] 1))
    (WState.mk [] none 1 (RecentLines.mk [(L, t)] (1 + k)))
    (WState.mk [] none 2 (RecentLines.mk [(M, t), (L, t)] 0))
    (List.replicate k 10) (bannerBytes (1 + k) ++ (M ++ [10, 10]))
    (List.replicate k (L ++ [10], t)) [(M ++ [10], t)]
    (iterWrites_mid L t hL k 1) hlast
  have h2 := iterWrites_cons_eval
    (WState.mk [] none 2 (RecentLines.mk [(L, t)] 0))
    (WState.mk [] none 1 (RecentLines.mk [(L, t)] 1))
    (WState.mk [] none 2 (RecentLines.mk [(M, t), (L, t)] 0))
    [10] (List.replicate k 10 ++ (bannerBytes (1 + k) ++ (M ++ [10, 10])))
    ((L ++ [10], t)) (List.replicate k (L ++ [10], t) ++ [(M ++ [10], t)])
    (writeStep_plain_dup L t t 2 0 hL (by norm_num) (by omega)) hmid
  have h1 := iterWrites_cons_eval initW
    (WState.mk [] none 2 (RecentLines.mk [(L, t)] 0))
    (WState.mk [] none 2 (RecentLines.mk [(M, t), (L, t)] 0))
    (L ++ [10, 10])
    ([10] ++ (List.replicate k 10 ++ (bannerBytes (1 + k) ++ (M ++ [10, 10]))))
    ((L ++ [10], t))
    ((L ++ [10], t) :: (List.replicate k (L ++ [10], t) ++ [(M ++ [10], t)]))
    (writeStep_plain_first L t hL) h2
  have hiter : iterWrites initW
      (List.replicate (k + 2) (L ++ [10], t) ++ [(M ++ [10], t)]) =
      (WState.mk [] none 2 (RecentLines.mk [(M, t), (L, t)] 0),
       (L ++ [10, 10]) ++ ([10] ++ (List.replicate k 10 ++
         (bannerBytes (k + 1) ++ (M ++ [10, 10]))))) := by
    rw [show (k + 2 : Nat) = (k + 1) + 1 from rfl, List.replicate_succ,
      List.cons_append, List.replicate_succ, List.cons_append]
    rw [← hco]
    exact h1
  have hrep1 : (k + 2) - 1 = k + 1 := by omega
  rw [hiter, hrep1]
  refine ⟨?_, rfl, ?_⟩
  · simp [bannerBytes, List.append_assoc, List.replicate_succ]
  · have hnoL : ∀ c ∈ L, c ≠ 10 := plain_ne_nl L hL.2
    have hnoM : ∀ c ∈ M, c ≠ 10 := plain_ne_nl M hM.2
    have hnoB : ∀ c ∈ bannerBody (k + 1), c ≠ 10 := bannerBody_noNL (k + 1)
    have e1 : ((L ++ [10, 10]) ++ ([10] ++ (List.replicate k 10 ++
        (bannerBytes (k + 1) ++ (M ++ [10, 10]))))) =
        L ++ 10 :: (10 :: (10 :: (List.replicate k 10 ++
          (bannerBody (k + 1) ++ 10 :: (M ++ 10 :: [10]))))) := by
      simp [bannerBytes, List.append_assoc]
    rw [e1]
    rw [splitNL_noNL_append L _ hnoL, splitNL_cons_nl, splitNL_cons_nl,
      splitNL_replicate, splitNL_noNL_append _ _ hnoB,
      splitNL_noNL_append M _ hnoM]
    rw [show splitNL [10] = [[], []] from rfl]
    have b1 : (([] : List Nat) == L) = false := by
      rw [beq_eq_false_iff_ne]
      exact fun e => hL.1 e.symm
    have b2 : ((bannerBody (k + 1) : List Nat) == L) = false := by
      rw [beq_eq_false_iff_ne]
      rw [show (k + 2) - 1 = k + 1 from by omega] at hLb
      exact fun e => hLb e.symm
    have b3 : ((M : List Nat) == L) = false := by
      rw [beq_eq_false_iff_ne]
      exact fun e => hLM e.symm
    have b4 : ((L : List Nat) == L) = true := by simp
    simp [List.count_cons, List.count_append, List.count_replicate,
      b1, b2, b3, b4]

/-- Witness for C6: three identical lines "PXE" then "Ret", all at t = 0. -/
theorem c6_duplicate_suppression_witness :
    (iterWrites initW
        (List.replicate 3 ([80, 88, 69] ++ [10], 0) ++
          [([82, 101, 116] ++ [10], 0)])).2 =
      [80, 88, 69] ++ [10, 10] ++ List.replicate 2 10 ++ bannerBytes 2 ++
        ([82, 101, 116] ++ [10, 10]) ∧
    (iterWrites initW
        (List.replicate 3 ([80, 88, 69] ++ [10], 0) ++
          [([82, 101, 116] ++ [10], 0)])).1.rl.dup = 0 ∧
    (splitNL (iterWrites initW
        (List.replicate 3 ([80, 88, 69] ++ [10], 0) ++
          [([82, 101, 116] ++ [10], 0)])).2).count [80, 88, 69] = 1 := by
  have h := c6_duplicate_suppression 3 [80, 88, 69] [82, 101, 116] 0
    (by norm_num)
    (by unfold plainLine plainByte; decide)
    (by unfold plainLine plainByte; decide)
    (by decide) (by unfold bannerBody natDigits digitsGo; decide)
  simpa using h

/-- Claim C4, counterexample: an ActivatePayload response whose
little-endian field at +6 of the response data is 256 (> 255) yields a
stored maxOutbound of 200 — the default — not 255 as a clamp to [1,255]
would give. -/
theorem c4_max_outbound_counterexample :
    parseActivate 0 (mkActivateResp [0, 0, 0, 0, 0, 0, 0, 1]) =
      Except.ok 200 ∧ (200 : Nat) ≠ 255 := by
  exact ⟨rfl, by decide⟩

/-- Claim C4 (amended): after a successful ActivatePayload response the
stored maxOutbound is the two-byte little-endian field at +6 of the
response data when that value lies in [1,255]; when the field is absent
(response data shorter than 8 bytes), zero, or greater than 255, the
stored value is the default 200 — it is not clamped to 255. -/
theorem c4_max_outbound_amended (rd : List Nat)
    (hsz : rd.length + 8 < 65536) :
    (8 ≤ rd.length →
       parseActivate 0 (mkActivateResp rd) =
         Except.ok (if le16dec (rd.getD 6 0) (rd.getD 7 0) = 0 ∨
                       255 < le16dec (rd.getD 6 0) (rd.getD 7 0) then 200
                    else le16dec (rd.getD 6 0) (rd.getD 7 0))) ∧
    (rd.length < 8 → parseActivate 0 (mkActivateResp rd) = Except.ok 200) := by
  have hL : (mkActivateResp rd).length = rd.length + 24 := by
    simp [mkActivateResp, le32n, le16n]
    try omega
  have h22 : (mkActivateResp rd).getD 22 0 = 0 := rfl
  have h14 : (mkActivateResp rd).getD 14 0 = (rd.length + 8) % 256 := rfl
  have h15 : (mkActivateResp rd).getD 15 0 = (rd.length + 8) / 256 % 256 :=
    rfl
  have h29 : (mkActivateResp rd).getD 29 0 = (rd ++ [0]).getD 6 0 := rfl
  have h30 : (mkActivateResp rd).getD 30 0 = (rd ++ [0]).getD 7 0 := rfl
  have hpl : le16dec ((rd.length + 8) % 256) ((rd.length + 8) / 256 % 256) =
      rd.length + 8 := by
    unfold le16dec
    omega
  constructor
  · intro h8
    have h6 : (rd ++ [0]).getD 6 0 = rd.getD 6 0 :=
      List.getD_append rd [0] 0 6 (by omega)
    have h7 : (rd ++ [0]).getD 7 0 = rd.getD 7 0 :=
      List.getD_append rd [0] 0 7 (by omega)
    unfold parseActivate
    simp only [hL, h22, h14, h15, h29, h30, hpl, h6, h7]
    rw [if_neg (by omega : ¬ (rd.length + 24 < 23))]
    rw [if_neg (show ¬ ((0 : Nat) ≠ 0) by simp)]
    rw [if_pos (show 8 ≤ rd.length + 8 - 8 ∧
        23 + (rd.length + 8 - 8) ≤ rd.length + 24 by omega)]
  · intro h8
    unfold parseActivate
    simp only [hL, h22, h14, h15, hpl]
    rw [if_neg (by omega : ¬ (rd.length + 24 < 23))]
    rw [if_neg (show ¬ ((0 : Nat) ≠ 0) by simp)]
    rw [if_neg (show ¬ (8 ≤ rd.length + 8 - 8 ∧
        23 + (rd.length + 8 - 8) ≤ rd.length + 24) by omega)]
    rw [if_pos (show (0 : Nat) = 0 ∨ 255 < 0 from Or.inl rfl)]

/-- Witness for C4: a present in-range field of 150 is stored as 150, and
an absent field yields 200. -/
theorem c4_max_outbound_witness :
    parseActivate 0 (mkActivateResp [0, 0, 0, 0, 0, 0, 150, 0]) =
      Except.ok (if le16dec 150 0 = 0 ∨ 255 < le16dec 150 0 then 200
                 else le16dec 150 0) ∧
    parseActivate 0 (mkActivateResp [0, 0, 0]) = Except.ok 200 :=
  ⟨by
      have h :=
        (c4_max_outbound_amended [0, 0, 0, 0, 0, 0, 150, 0] (by decide)).1
          (by decide)
      simpa using h,
   (c4_max_outbound_amended [0, 0, 0] (by decide)).2 (by decide)⟩

/-- Claim C2 (code bug): the bytes appended by a single `Write` of
"y\nx\n\ny\n\n" to a fresh writer are "y\nx\n\n\n\n" — a run of four
consecutive newlines.  The line-level dedup suppresses the duplicate "y"
but still emits one newline per surrounding empty split-segment, defeating
the blank-line clamp; the code's own comment promises at most two
consecutive newlines in the file. -/
theorem c2_clean_log_failing_eval :
    (writeStep initW [121, 10, 120, 10, 10, 121, 10, 10] 0).2 =
      [121, 10, 120, 10, 10, 10, 10] ∧
    hasTriple (writeStep initW [121, 10, 120, 10, 10, 121, 10, 10] 0).2 =
      true := by
  exact ⟨rfl, rfl⟩

/-- Claim C5, counterexample: split the input
"u\nab" ++ ESC ++ "[9Xu\n" inside the ANSI escape (after "[9").
Delivering the two chunks appends "u\nab" ++ "\n", while delivering the
single concatenated chunk appends "u\nabu\n\n": the stash reassembles the
escape correctly, but the dedup treats the split-off fragments as separate
lines and suppresses the second "u". -/
theorem c5_split_counterexample :
    (writeStep initW [117, 10, 97, 98, 27, 91, 57] 0).2 ++
      (writeStep (writeStep initW [117, 10, 97, 98, 27, 91, 57] 0).1
        [88, 117, 10] 0).2 ≠
    (writeStep initW ([117, 10, 97, 98, 27, 91, 57] ++ [88, 117, 10]) 0).2 := by
  decide

/-- Claim C5 (amended): when the first chunk is exactly the unterminated
escape prefix — an ESC followed by at most 4 bytes containing no further
ESC and not ending in a letter — and no data is pending, that `Write`
appends nothing and only stashes the chunk, and the following `Write` of B
behaves exactly as a single `Write` of the concatenation, so the appended
bytes agree. -/
theorem c5_stash_amended (st : WState) (pfx : List Nat) (t : Nat)
    (hp27 : 27 ∉ pfx) (hplen : pfx.length ≤ 4)
    (hlast : isAlphaB (pfx.reverse.headD 27) = false)
    (hpend : st.pending = []) :
    writeStep st (27 :: pfx) t = ({ st with pending := 27 :: pfx }, []) ∧
    (∀ B t', writeStep { st with pending := 27 :: pfx } B t' =
        writeStep st ((27 :: pfx) ++ B) t') := by
  obtain ⟨pend0, ll0, tnl0, rl0⟩ := st
  simp only at hpend
  subst hpend
  have hpost : (((27 :: pfx).reverse).takeWhile (fun c => c != 27)).reverse
      = pfx := by
    rw [List.reverse_cons]
    rw [takeWhile_append_all _ _ _ (fun c hc => by
      have hcm : c ∈ pfx := List.mem_reverse.mp hc
      simp only [bne_iff_ne, ne_eq]
      exact fun e => hp27 (e ▸ hcm))]
    simp
  have hstash : stashCalc (27 :: pfx) = (27 :: pfx, []) := by
    unfold stashCalc
    simp only [hpost]
    rw [if_pos (⟨List.mem_cons_self 27 pfx, hplen, hlast⟩ :
      27 ∈ 27 :: pfx ∧ pfx.length ≤ 4 ∧
        isAlphaB (pfx.reverse.headD 27) = false)]
    simp
  constructor
  · show writeCore ⟨[], ll0, tnl0, rl0⟩ ([] ++ (27 :: pfx)) t = _
    rw [List.nil_append]
    unfold writeCore
    rw [hstash, cleanLogData_nil]
    exact writeTail_nil _ _
  · intro B t'
    show writeCore ⟨[], ll0, tnl0, rl0⟩ ((27 :: pfx) ++ B) t' =
      writeCore ⟨[], ll0, tnl0, rl0⟩ ([] ++ ((27 :: pfx) ++ B)) t'
    rw [List.nil_append]

/-- Witness for C5: the escape prefix ESC "[0" followed by "m\n". -/
theorem c5_stash_witness :
    writeStep initW [27, 91, 48] 0 =
      ({ initW with pending := [27, 91, 48] }, []) ∧
    writeStep { initW with pending := [27, 91, 48] } [109, 10] 0 =
      writeStep initW ([27, 91, 48] ++ [109, 10]) 0 :=
  ⟨(c5_stash_amended initW [91, 48] 0 (by decide) (by decide) (by decide)
      rfl).1,
   (c5_stash_amended initW [91, 48] 0 (by decide) (by decide) (by decide)
      rfl).2 [109, 10] 0⟩

/-- Witness for C7: rotations at t=0 and t=10. -/
theorem c7_rotate_witness :
    canRotate (rotateW (RotState.mk [] none) 0) 10 = false ∧
    (∀ st' : RotState, 10 ∉ st'.files →
        (rotateW st' 10).files = st'.files ++ [10]) ∧
    (∀ st' : RotState, 10 ∈ st'.files →
        (rotateW st' 10).files = st'.files) :=
  c7_rotate_amended (RotState.mk [] none) 0 10 (by decide)

end IpmiSerial
